import Mathlib

/-!
Verification of the engine-trait crate: a shallow embedding of the
`Engine` trait (src/lib.rs), the protocol types (src/server_types.rs) and
the orchestrator `handle_move` (src/server.rs), together with theorems
about the orchestrator's behaviour, its locking discipline, and the UCI
move codec the crate relies on.
-/

namespace EngineTrait

/-- Operations of the external board library (the `shakmaty` crate) as the
orchestrator uses them: `nullUci` is the null-move sentinel `Uci::Null`;
`toMove` is `Uci::to_move` (parse a UCI token into a move legal in the given
position, or fail); `playUnchecked` is `Chess::play_unchecked`; `play` is the
legality-checked `Chess::play`; `toUci` is `Move::to_uci` (canonical UCI
form).  `Board`, `Move` and `UciT` are abstract, as the spec treats the
codec as an external collaborator. -/
structure ChessOps (Board Move UciT : Type) where
  nullUci : UciT
  toMove : UciT → Board → Except Unit Move
  playUnchecked : Board → Move → Board
  play : Board → Move → Except Unit Board
  toUci : Move → UciT

/-- The `Engine` trait of src/lib.rs (lines 38 to 96), seed-based variant.
Per its statefulness contract, every operation is a deterministic function
of the seed, the externalized `State` and the position.  `observe_move`
takes the state by `&mut` and updates it in place, modelled as returning
the new state; both propose operations take the state by shared `&`
reference, modelled as not returning a state. -/
structure Engine (State StatusInfo Error Move Board : Type) where
  proposeMove : Nat → State → Board → Except Error (Move × StatusInfo)
  proposeMoveWithoutInfo : Nat → State → Board → Except Error Move
  observeMove : Nat → State → Move → Board → Except Error State

/-- Default body of `Engine::propose_move_without_info` (src/lib.rs lines 74
to 83): forward to `propose_move` and keep only the move component, i.e.
`self.propose_move(..).and_then(|v| Ok(v.0))`. -/
def defaultProposeMoveWithoutInfo {State StatusInfo Error Move Board : Type}
    (eng : Engine State StatusInfo Error Move Board)
    (rand : Nat) (current_state : State) (current_position : Board) :
    Except Error Move :=
  (eng.proposeMove rand current_state current_position).bind
    (fun v => Except.ok v.1)

/-- The `EngineRequest` structure of src/server_types.rs (lines 10 to 37).
Seeds are 64-bit values in the source; they are only passed through, so
they are modelled as `Nat`. -/
structure EngineRequest (State Board UciT : Type) where
  move : UciT
  game_before : Board
  engine_state : State
  observe_mine_rand : Option Nat
  produce_rand : Option Nat
  observe_your_rand : Option Nat
  with_status_info : Bool

/-- The `EngineResponse` structure of src/server_types.rs (lines 81 to 107). -/
structure EngineResponse (State StatusInfo Board UciT : Type) where
  move : UciT
  game_after : Board
  status_info : Option StatusInfo
  observe_other_rand_used : Option Nat
  produce_rand_used : Nat
  observe_mine_rand_used : Nat
  engine_state : State
deriving DecidableEq

/-- The `EngineRequestError` enum of src/server_types.rs (lines 66 to 79). -/
inductive EngineRequestError (UciT : Type) where
  | positionMoveMismatch : EngineRequestError UciT
  | engineSentIllegalMove (mv : UciT) : EngineRequestError UciT
deriving DecidableEq

/-- The `EngineResult` enum of src/server_types.rs (lines 138 to 143): the
outcome of one orchestrator run. -/
inductive EngineResult (State StatusInfo Error Board UciT : Type) where
  | requestError (e : EngineRequestError UciT)
  | engineError (e : Error)
  | ok (r : EngineResponse State StatusInfo Board UciT)
deriving DecidableEq

/-- Ghost record of one engine-trait call made by the orchestrator,
carrying the arguments it was given: `observe` records the
`(rand, move_taken, position_after)` of an `observe_move` call, and the two
propose constructors record `(rand, current_state, current_position)`. -/
inductive EngineCall (State Move Board : Type) where
  | observe (rand : Nat) (move_taken : Move) (position_after : Board)
  | propose (rand : Nat) (current_state : State) (current_position : Board)
  | proposeWithoutInfo (rand : Nat) (current_state : State)
      (current_position : Board)
deriving DecidableEq

/-- Ambient process randomness (`rand::random()`), modelled as a pre-drawn
stream of values consumed in call order (with 0 past the stream's end). -/
def takeRand : List Nat → Nat × List Nat
  | [] => (0, [])
  | x :: xs => (x, xs)

/-- The idiom `option.unwrap_or_else(rand::random)` of the orchestrator:
use the caller-supplied seed when present, otherwise draw one fresh value
from the ambient stream. -/
def drawSeed (o : Option Nat) (amb : List Nat) : Nat × List Nat :=
  match o with
  | some v => (v, amb)
  | none => takeRand amb

variable {State StatusInfo Error Move Board UciT : Type}

/-- Step 1 of `handle_move` (src/server.rs lines 30 to 69): resolve and
observe the opponent's move.  A null move skips both the parse and the
`observe_move` call and records no seed.  Otherwise the UCI token is parsed
against `game_before` (failure is `PositionMoveMismatch`), applied with
`play_unchecked`, and observed by the engine under the first lock block.
On success it yields the updated state, the position after the opponent's
move, the recorded observe seed, the remaining ambient stream, and the log
of engine calls made so far; on early return it yields the result and log. -/
def observePhase [DecidableEq UciT] (ops : ChessOps Board Move UciT)
    (eng : Engine State StatusInfo Error Move Board)
    (request : EngineRequest State Board UciT) (amb : List Nat) :
    Except
      (EngineResult State StatusInfo Error Board UciT ×
        List (EngineCall State Move Board))
      ((State × Board × Option Nat × List Nat) ×
        List (EngineCall State Move Board)) :=
  if request.move ≠ ops.nullUci then
    match ops.toMove request.move request.game_before with
    | Except.error _ =>
        Except.error
          (EngineResult.requestError EngineRequestError.positionMoveMismatch,
            [])
    | Except.ok user_move =>
        match eng.observeMove (drawSeed request.observe_mine_rand amb).1
            request.engine_state user_move
            (ops.playUnchecked request.game_before user_move) with
        | Except.error why =>
            Except.error (EngineResult.engineError why,
              [EngineCall.observe (drawSeed request.observe_mine_rand amb).1
                user_move (ops.playUnchecked request.game_before user_move)])
        | Except.ok state1 =>
            Except.ok ((state1, ops.playUnchecked request.game_before user_move,
                some (drawSeed request.observe_mine_rand amb).1,
                (drawSeed request.observe_mine_rand amb).2),
              [EngineCall.observe (drawSeed request.observe_mine_rand amb).1
                user_move (ops.playUnchecked request.game_before user_move)])
  else
    Except.ok ((request.engine_state, request.game_before, none, amb), [])

/-- Step 2 of `handle_move` (src/server.rs lines 71 to 93): draw or accept
the produce seed, then call `propose_move` or `propose_move_without_info`
(second lock block) according to `with_status_info`.  On success it yields
the proposed move, the optional status info, the seed used and the
remaining ambient stream. -/
def proposePhase (eng : Engine State StatusInfo Error Move Board)
    (request : EngineRequest State Board UciT)
    (state : State) (game_after : Board) (amb : List Nat) :
    Except
      (EngineResult State StatusInfo Error Board UciT ×
        List (EngineCall State Move Board))
      ((Move × Option StatusInfo × Nat × List Nat) ×
        List (EngineCall State Move Board)) :=
  if request.with_status_info then
    match eng.proposeMove (drawSeed request.produce_rand amb).1 state game_after with
    | Except.ok v =>
        Except.ok ((v.1, some v.2, (drawSeed request.produce_rand amb).1,
            (drawSeed request.produce_rand amb).2),
          [EngineCall.propose (drawSeed request.produce_rand amb).1 state
            game_after])
    | Except.error why =>
        Except.error (EngineResult.engineError why,
          [EngineCall.propose (drawSeed request.produce_rand amb).1 state
            game_after])
  else
    match eng.proposeMoveWithoutInfo (drawSeed request.produce_rand amb).1
        state game_after with
    | Except.ok a =>
        Except.ok ((a, none, (drawSeed request.produce_rand amb).1,
            (drawSeed request.produce_rand amb).2),
          [EngineCall.proposeWithoutInfo (drawSeed request.produce_rand amb).1
            state game_after])
    | Except.error why =>
        Except.error (EngineResult.engineError why,
          [EngineCall.proposeWithoutInfo (drawSeed request.produce_rand amb).1
            state game_after])

/-- Steps 3 and 4 of `handle_move` (src/server.rs lines 95 to 130): draw or
accept the observe-own seed, apply the proposed move with the
legality-checked `play` (an illegal engine move is `EngineSentIllegalMove`
carrying the move's canonical UCI form), observe the engine's own move
(third lock block), and assemble the response. -/
def finishPhase (ops : ChessOps Board Move UciT)
    (eng : Engine State StatusInfo Error Move Board)
    (request : EngineRequest State Board UciT)
    (state : State) (game_after : Board)
    (observe_other_rand_used : Option Nat)
    (proposed_move : Move) (info : Option StatusInfo)
    (produce_rand_used : Nat) (amb : List Nat) :
    EngineResult State StatusInfo Error Board UciT ×
      List (EngineCall State Move Board) :=
  match ops.play game_after proposed_move with
  | Except.error _ =>
      (EngineResult.requestError
        (EngineRequestError.engineSentIllegalMove (ops.toUci proposed_move)),
        [])
  | Except.ok game_after_mine =>
      match eng.observeMove (drawSeed request.observe_your_rand amb).1 state
          proposed_move game_after_mine with
      | Except.error why =>
          (EngineResult.engineError why,
            [EngineCall.observe (drawSeed request.observe_your_rand amb).1
              proposed_move game_after_mine])
      | Except.ok state2 =>
          (EngineResult.ok
            { move := ops.toUci proposed_move,
              game_after := game_after_mine,
              status_info := info,
              observe_other_rand_used := observe_other_rand_used,
              produce_rand_used := produce_rand_used,
              observe_mine_rand_used := (drawSeed request.observe_your_rand amb).1,
              engine_state := state2 },
            [EngineCall.observe (drawSeed request.observe_your_rand amb).1
              proposed_move game_after_mine])

/-- The orchestrator `handle_move` of src/server.rs (lines 22 to 131),
composed from its three phases, returning the `EngineResult` together with
the ghost log of engine-trait calls made, in order. -/
def handleMove [DecidableEq UciT] (ops : ChessOps Board Move UciT)
    (eng : Engine State StatusInfo Error Move Board)
    (request : EngineRequest State Board UciT) (amb : List Nat) :
    EngineResult State StatusInfo Error Board UciT ×
      List (EngineCall State Move Board) :=
  match observePhase ops eng request amb with
  | Except.error r => r
  | Except.ok ((state1, game_after, ooru, amb1), log1) =>
      match proposePhase eng request state1 game_after amb1 with
      | Except.error r => (r.1, log1 ++ r.2)
      | Except.ok ((proposed_move, info, pru, amb2), log2) =>
          let r := finishPhase ops eng request state1 game_after ooru
            proposed_move info pru amb2
          (r.1, log1 ++ log2 ++ r.2)

/-- Whether a logged engine call is an `observe_move` call. -/
def EngineCall.isObserve : EngineCall State Move Board → Bool
  | EngineCall.observe _ _ _ => true
  | _ => false

/-- The `current_position` argument of a logged propose call, when the call
is one of the two propose operations. -/
def EngineCall.proposedPosition? : EngineCall State Move Board → Option Board
  | EngineCall.propose _ _ p => some p
  | EngineCall.proposeWithoutInfo _ _ p => some p
  | _ => none

/-- The `(rand, move_taken, position_after)` arguments of a logged
`observe_move` call, when the call is one. -/
def observeArg : EngineCall State Move Board → Option (Nat × Move × Board)
  | EngineCall.observe r m b => some (r, m, b)
  | _ => none

/-- Replay one `observe_move` state update from its recorded arguments:
apply the engine's `observe_move` to the current state and keep the updated
state on success. -/
def stepObserve (eng : Engine State StatusInfo Error Move Board)
    (s : State) (a : Nat × Move × Board) : State :=
  match eng.observeMove a.1 s a.2.1 a.2.2 with
  | Except.ok s' => s'
  | Except.error _ => s

/-- Whether an orchestrator outcome is one of the two error variants. -/
def EngineResult.isErr : EngineResult State StatusInfo Error Board UciT → Bool
  | EngineResult.ok _ => false
  | _ => true

/-- The engine state carried by an orchestrator outcome: the error variants
of `EngineResult` carry no state at all, only `Ok` does. -/
def returnedEngineState :
    EngineResult State StatusInfo Error Board UciT → Option State
  | EngineResult.ok r => some r.engine_state
  | _ => none

/-- The caller's externally held engine state after one request: replaced by
the response's state on success, kept unchanged otherwise (the caller owns
the state between requests and the service never persists it). -/
def callerNextState (held : State)
    (r : EngineResult State StatusInfo Error Board UciT) : State :=
  (returnedEngineState r).getD held

/-! Lock model for the service wrapper.  The engine instance is stored in
an `Arc<Mutex<E>>` (src/server.rs line 15).  `handle_move` contains three
separate `e.lock().await` blocks, one around each engine-trait call: lines
48 to 64 (observe the opponent's move), 74 to 93 (propose) and 106 to 119
(observe the engine's own move); each guard is dropped at the end of its
block, releasing the mutex between consecutive engine calls of the same
request. -/

/-- One lock-related event of a request: acquiring the mutex, performing
its engine call number `idx` while holding it, or releasing it. -/
inductive LockEvent where
  | acquire : LockEvent
  | engineCall (idx : Nat) : LockEvent
  | release : LockEvent
deriving DecidableEq

/-- The sequence of lock events a `handle_move` run with `n` engine calls
performs: per the three separate lock blocks of src/server.rs, every engine
call is bracketed by its own acquire and release. -/
def lockTrace : Nat → List LockEvent
  | 0 => []
  | n + 1 =>
      lockTrace n ++ [LockEvent.acquire, LockEvent.engineCall n, LockEvent.release]

/-- One event of a schedule interleaving two concurrent requests, tagged
with which request (`false` or `true`) performed it. -/
structure SchedEvent where
  reqId : Bool
  ev : LockEvent
deriving DecidableEq

/-- The subsequence of a schedule performed by one request. -/
def projTrace (reqId : Bool) (s : List SchedEvent) : List LockEvent :=
  s.filterMap (fun e => if e.reqId = reqId then some e.ev else none)

/-- Run the mutex semantics over a schedule from a given holder state
(`none` means the lock is free): a request may acquire only a free lock,
and may perform an engine call or release only while it is the holder.
Returns the final holder state, or `none` when the schedule violates the
mutex discipline. -/
def lockRun : Option Bool → List SchedEvent → Option (Option Bool)
  | st, [] => some st
  | none, e :: es =>
      match e.ev with
      | LockEvent.acquire => lockRun (some e.reqId) es
      | _ => none
  | some h, e :: es =>
      match e.ev with
      | LockEvent.acquire => none
      | LockEvent.engineCall _ =>
          if e.reqId = h then lockRun (some h) es else none
      | LockEvent.release =>
          if e.reqId = h then lockRun none es else none

/-- Whether a schedule respects the mutex semantics, starting and ending
with the lock free. -/
def lockValid (s : List SchedEvent) : Bool :=
  lockRun none s = some none

/-- Whether a schedule is a valid concurrent execution of two requests
whose per-request lock traces are `ta` and `tb`: each request's events
appear in its program order and the mutex discipline is respected. -/
def validSchedule (s : List SchedEvent) (ta tb : List LockEvent) : Prop :=
  projTrace false s = ta ∧ projTrace true s = tb ∧ lockValid s = true

/-- The request ids of the engine-call events of a schedule, in order. -/
def callSeq (s : List SchedEvent) : List Bool :=
  s.filterMap (fun e =>
    match e.ev with
    | LockEvent.engineCall _ => some e.reqId
    | _ => none)

/-- Drop the leading run of copies of `x` from a list. -/
def dropLeading (x : Bool) : List Bool → List Bool
  | [] => []
  | y :: ys => if y = x then dropLeading x ys else y :: ys

/-- Whether a list of request ids is serial: all calls of one request come
before all calls of the other (no a, b, a pattern). -/
def isSerial : List Bool → Bool
  | [] => true
  | x :: xs => (dropLeading x xs).all (fun y => y ≠ x)

/-- Tag every event of a per-request lock trace with one request id. -/
def tagAll (b : Bool) (t : List LockEvent) : List SchedEvent :=
  t.map (fun e => SchedEvent.mk b e)

/-- Number of times a lock trace acquires the mutex. -/
def countAcquires (t : List LockEvent) : Nat :=
  (t.filter (fun e => e = LockEvent.acquire)).length

/-! Concrete instantiation used to evaluate the orchestrator on explicit
inputs.  The board library is abstract in the embedding, so a small test
double stands in for it: positions and moves are numbers, the tokens
`TUci.mu 1` and `TUci.mu 2` parse to the legal moves 1 and 2, and applying
a move adds it to the position. -/

/-- Test-double UCI token type: the null-move sentinel or a numbered move
token. -/
inductive TUci where
  | null : TUci
  | mu (n : Nat) : TUci
deriving DecidableEq

/-- Test-double board operations: moves 1 and 2 are legal everywhere,
anything else is illegal; applying a move adds its number to the
position. -/
def tOps : ChessOps Nat Nat TUci where
  nullUci := TUci.null
  toMove := fun u _ =>
    match u with
    | TUci.null => Except.error ()
    | TUci.mu n => if n ≤ 2 then Except.ok n else Except.error ()
  playUnchecked := fun b m => b + m
  play := fun b m => if m ≤ 2 then Except.ok (b + m) else Except.error ()
  toUci := fun m => TUci.mu m

/-- Test-double engine that always proposes the legal move 1 and folds
seed and move into its state on every observation. -/
def tEngGood : Engine Nat Unit Unit Nat Nat where
  proposeMove := fun _ _ _ => Except.ok (1, ())
  proposeMoveWithoutInfo := fun _ _ _ => Except.ok 1
  observeMove := fun r s m _ => Except.ok (s + 10 * m + r)

/-- Test-double engine that proposes the illegal move 7. -/
def tEngIllegal : Engine Nat Unit Unit Nat Nat where
  proposeMove := fun _ _ _ => Except.ok (7, ())
  proposeMoveWithoutInfo := fun _ _ _ => Except.ok 7
  observeMove := fun r s m _ => Except.ok (s + 10 * m + r)

/-- Request playing token 2 from position 0, with all three seeds
supplied. -/
def reqMove2 : EngineRequest Nat Nat TUci where
  move := TUci.mu 2
  game_before := 0
  engine_state := 100
  observe_mine_rand := some 3
  produce_rand := some 4
  observe_your_rand := some 5
  with_status_info := true

/-- Request playing the null move, with all three seeds supplied. -/
def reqNull : EngineRequest Nat Nat TUci where
  move := TUci.null
  game_before := 0
  engine_state := 100
  observe_mine_rand := some 3
  produce_rand := some 4
  observe_your_rand := some 5
  with_status_info := false

/-- Request submitting the unparsable token `TUci.mu 9`. -/
def reqBadMove : EngineRequest Nat Nat TUci where
  move := TUci.mu 9
  game_before := 0
  engine_state := 100
  observe_mine_rand := some 3
  produce_rand := some 4
  observe_your_rand := some 5
  with_status_info := true

/-! Modelled from the spec: the Move codec (UCI-text parsing and
serialization) lives in the external board library (the `shakmaty` crate),
not under src/; src/chess_serde.rs only wraps it for the wire format.  The
definitions below follow the spec's description of the canonical form: a
move is "a four-to-five character coordinate string plus optional promotion
piece (UCI-style), or a distinguished null move sentinel".  Texts are
modelled as lists of characters. -/

/-- Promotion pieces of UCI move notation. -/
inductive PromoPiece where
  | knight : PromoPiece
  | bishop : PromoPiece
  | rook : PromoPiece
  | queen : PromoPiece
deriving DecidableEq

/-- Canonical character of a promotion piece. -/
def promoChar : PromoPiece → Char
  | PromoPiece.knight => 'n'
  | PromoPiece.bishop => 'b'
  | PromoPiece.rook => 'r'
  | PromoPiece.queen => 'q'

/-- Parse a promotion-piece character. -/
def charPromo (c : Char) : Option PromoPiece :=
  if c = 'n' then some PromoPiece.knight
  else if c = 'b' then some PromoPiece.bishop
  else if c = 'r' then some PromoPiece.rook
  else if c = 'q' then some PromoPiece.queen
  else none

/-- A board square as a file (0 to 7, printed a to h) and a rank (0 to 7,
printed 1 to 8). -/
abbrev Square := Fin 8 × Fin 8

/-- Canonical character of a file. -/
def fileChar (f : Fin 8) : Char := Char.ofNat (97 + f.val)

/-- Canonical character of a rank. -/
def rankChar (r : Fin 8) : Char := Char.ofNat (49 + r.val)

/-- Parse a file character (a to h). -/
def charFile (c : Char) : Option (Fin 8) :=
  if h : 97 ≤ c.toNat ∧ c.toNat < 105 then some ⟨c.toNat - 97, by omega⟩
  else none

/-- Parse a rank character (1 to 8). -/
def charRank (c : Char) : Option (Fin 8) :=
  if h : 49 ≤ c.toNat ∧ c.toNat < 57 then some ⟨c.toNat - 49, by omega⟩
  else none

/-- A UCI move: the null-move sentinel, or a source and destination square
with an optional promotion piece. -/
inductive UciMove where
  | null : UciMove
  | normal (src : Square) (dst : Square) (promotion : Option PromoPiece) :
      UciMove
deriving DecidableEq

/-- Serialize a UCI move to its canonical text: the null move prints as
0000, a normal move as source square, destination square and optional
promotion character. -/
def uciChars : UciMove → List Char
  | UciMove.null => ['0', '0', '0', '0']
  | UciMove.normal s d p =>
      [fileChar s.1, rankChar s.2, fileChar d.1, rankChar d.2] ++
        (match p with
         | none => []
         | some pp => [promoChar pp])

/-- Parse a canonical UCI text: 0000 is the null move; otherwise four
characters give source and destination squares, with an optional fifth
promotion character. -/
def parseUci (cs : List Char) : Option UciMove :=
  if cs = ['0', '0', '0', '0'] then some UciMove.null
  else
    match cs with
    | [a, b, c, d] =>
        match charFile a, charRank b, charFile c, charRank d with
        | some f1, some r1, some f2, some r2 =>
            some (UciMove.normal (f1, r1) (f2, r2) none)
        | _, _, _, _ => none
    | [a, b, c, d, e] =>
        match charFile a, charRank b, charFile c, charRank d, charPromo e with
        | some f1, some r1, some f2, some r2, some pp =>
            some (UciMove.normal (f1, r1) (f2, r2) (some pp))
        | _, _, _, _, _ => none
    | _ => none

/-- A concrete schedule interleaving two requests against one engine
instance: request `false` performs its first lock block, then request
`true` performs its first lock block, then request `false` finishes its
remaining two blocks, then request `true` finishes its last block. -/
def cexSched : List SchedEvent :=
  [SchedEvent.mk false LockEvent.acquire,
   SchedEvent.mk false (LockEvent.engineCall 0),
   SchedEvent.mk false LockEvent.release,
   SchedEvent.mk true LockEvent.acquire,
   SchedEvent.mk true (LockEvent.engineCall 0),
   SchedEvent.mk true LockEvent.release,
   SchedEvent.mk false LockEvent.acquire,
   SchedEvent.mk false (LockEvent.engineCall 1),
   SchedEvent.mk false LockEvent.release,
   SchedEvent.mk false LockEvent.acquire,
   SchedEvent.mk false (LockEvent.engineCall 2),
   SchedEvent.mk false LockEvent.release,
   SchedEvent.mk true LockEvent.acquire,
   SchedEvent.mk true (LockEvent.engineCall 1),
   SchedEvent.mk true LockEvent.release]

/-- The move e2e4 (file e, rank 2 to file e, rank 4; files and ranks are
zero-based here). -/
def e2e4 : UciMove := UciMove.normal (4, 1) (4, 3) none

/-! Theorems. -/

/-- Helper: running the mutex semantics over an appended schedule chains
through the intermediate holder state. -/
theorem lockRun_append (st : Option Bool) (s t : List SchedEvent) :
    lockRun st (s ++ t) = (lockRun st s).bind (fun st' => lockRun st' t) := by
  induction s generalizing st with
  | nil => simp [lockRun]
  | cons e es ih =>
      cases st with
      | none =>
          cases he : e.ev <;> simp [lockRun, he, ih]
      | some h =>
          cases he : e.ev with
          | acquire => simp [lockRun, he]
          | engineCall idx =>
              simp only [List.cons_append, lockRun, he]
              split <;> simp [ih]
          | release =>
              simp only [List.cons_append, lockRun, he]
              split <;> simp [ih]

/-- Helper: a single request running its whole lock trace alone satisfies
the mutex semantics, performing every engine call while holding the lock,
and ends with the lock free. -/
theorem lockRun_tagAll_lockTrace (b : Bool) (n : Nat) :
    lockRun none (tagAll b (lockTrace n)) = some none := by
  induction n with
  | zero => rfl
  | succ n ih =>
      have hsplit : tagAll b (lockTrace (n + 1)) =
          tagAll b (lockTrace n) ++
            [SchedEvent.mk b LockEvent.acquire,
             SchedEvent.mk b (LockEvent.engineCall n),
             SchedEvent.mk b LockEvent.release] := by
        simp [lockTrace, tagAll]
      rw [hsplit, lockRun_append, ih]
      simp [lockRun]

/-- Helper: a run with `n` engine calls acquires the mutex `n` times, once
per engine call. -/
theorem countAcquires_lockTrace (n : Nat) : countAcquires (lockTrace n) = n := by
  induction n with
  | zero => rfl
  | succ n ih =>
      simp [lockTrace, countAcquires, List.filter_append] at ih ⊢
      omega

/-- Helper: the early returns of `observePhase` are error results, never a
successful response. -/
theorem observePhase_error_isErr [DecidableEq UciT]
    {ops : ChessOps Board Move UciT}
    {eng : Engine State StatusInfo Error Move Board}
    {request : EngineRequest State Board UciT} {amb : List Nat}
    {r : EngineResult State StatusInfo Error Board UciT ×
      List (EngineCall State Move Board)}
    (h : observePhase ops eng request amb = Except.error r) :
    r.1.isErr = true := by
  by_cases hnull : request.move = ops.nullUci
  · simp [observePhase, hnull] at h
  · simp only [observePhase, hnull, ne_eq, not_false_eq_true, if_true] at h
    cases hto : ops.toMove request.move request.game_before with
    | error e =>
        rw [hto] at h
        injection h with h
        rw [← h]
        rfl
    | ok um =>
        simp only [hto] at h
        cases hob : eng.observeMove (drawSeed request.observe_mine_rand amb).1
            request.engine_state um
            (ops.playUnchecked request.game_before um) with
        | error why =>
            simp only [hob] at h
            injection h with h
            rw [← h]
            rfl
        | ok s1 =>
            simp only [hob] at h
            exact absurd h (by simp)

/-- Helper: the early return of `proposePhase` is an engine-error result,
never a successful response. -/
theorem proposePhase_error_isErr
    {eng : Engine State StatusInfo Error Move Board}
    {request : EngineRequest State Board UciT}
    {st : State} {g : Board} {amb : List Nat}
    {r : EngineResult State StatusInfo Error Board UciT ×
      List (EngineCall State Move Board)}
    (h : proposePhase eng request st g amb = Except.error r) :
    r.1.isErr = true := by
  by_cases hw : request.with_status_info
  · simp only [proposePhase, hw, if_true] at h
    cases hp : eng.proposeMove (drawSeed request.produce_rand amb).1 st g with
    | error why =>
        rw [hp] at h
        injection h with h
        rw [← h]
        rfl
    | ok v =>
        rw [hp] at h
        exact absurd h (by simp)
  · simp only [proposePhase, hw, if_false, Bool.false_eq_true] at h
    cases hp : eng.proposeMoveWithoutInfo (drawSeed request.produce_rand amb).1
        st g with
    | error why =>
        rw [hp] at h
        injection h with h
        rw [← h]
        rfl
    | ok a =>
        rw [hp] at h
        exact absurd h (by simp)

/-- Helper: inversion of a successful `observePhase`: either the request's
move was the null sentinel and nothing was observed, or the move parsed,
was applied with `play_unchecked`, and was observed by the engine with the
recorded seed. -/
theorem observePhase_ok_inv [DecidableEq UciT]
    {ops : ChessOps Board Move UciT}
    {eng : Engine State StatusInfo Error Move Board}
    {request : EngineRequest State Board UciT}
    {amb : List Nat} {s1 : State} {g : Board}
    {o : Option Nat} {amb1 : List Nat}
    {log1 : List (EngineCall State Move Board)}
    (h : observePhase ops eng request amb =
      Except.ok ((s1, g, o, amb1), log1)) :
    (request.move = ops.nullUci ∧ s1 = request.engine_state ∧
      g = request.game_before ∧ o = none ∧ amb1 = amb ∧ log1 = []) ∨
    (request.move ≠ ops.nullUci ∧ ∃ um,
      ops.toMove request.move request.game_before = Except.ok um ∧
      g = ops.playUnchecked request.game_before um ∧
      o = some (drawSeed request.observe_mine_rand amb).1 ∧
      amb1 = (drawSeed request.observe_mine_rand amb).2 ∧
      eng.observeMove (drawSeed request.observe_mine_rand amb).1
        request.engine_state um g = Except.ok s1 ∧
      log1 = [EngineCall.observe (drawSeed request.observe_mine_rand amb).1
        um g]) := by
  by_cases hnull : request.move = ops.nullUci
  · left
    simp [observePhase, hnull] at h
    obtain ⟨⟨rfl, rfl, rfl, rfl⟩, rfl⟩ := h
    exact ⟨hnull, rfl, rfl, rfl, rfl, rfl⟩
  · right
    refine ⟨hnull, ?_⟩
    simp only [observePhase, hnull, ne_eq, not_false_eq_true, if_true] at h
    cases hto : ops.toMove request.move request.game_before with
    | error e => rw [hto] at h; exact absurd h (by simp)
    | ok um =>
        simp only [hto] at h
        cases hob : eng.observeMove (drawSeed request.observe_mine_rand amb).1
            request.engine_state um
            (ops.playUnchecked request.game_before um) with
        | error why => simp only [hob] at h; exact absurd h (by simp)
        | ok s1a =>
            simp only [hob, Except.ok.injEq, Prod.mk.injEq] at h
            obtain ⟨⟨rfl, rfl, rfl, rfl⟩, rfl⟩ := h
            exact ⟨um, rfl, rfl, rfl, rfl, hob, rfl⟩

/-- Helper: inversion of a successful `proposePhase`: the seed used is the
caller's `produce_rand` when supplied (else a fresh draw), the status info
is present exactly when `with_status_info` was set, and the log is the one
propose call, which received the state and position by value. -/
theorem proposePhase_ok_inv
    {eng : Engine State StatusInfo Error Move Board}
    {request : EngineRequest State Board UciT}
    {st : State} {g : Board} {amb : List Nat}
    {pm : Move} {info : Option StatusInfo} {pru : Nat} {amb2 : List Nat}
    {log2 : List (EngineCall State Move Board)}
    (h : proposePhase eng request st g amb =
      Except.ok ((pm, info, pru, amb2), log2)) :
    pru = (drawSeed request.produce_rand amb).1 ∧
    amb2 = (drawSeed request.produce_rand amb).2 ∧
    info.isSome = request.with_status_info ∧
    ((request.with_status_info = true ∧ ∃ i, info = some i ∧
        eng.proposeMove pru st g = Except.ok (pm, i) ∧
        log2 = [EngineCall.propose pru st g]) ∨
     (request.with_status_info = false ∧ info = none ∧
        eng.proposeMoveWithoutInfo pru st g = Except.ok pm ∧
        log2 = [EngineCall.proposeWithoutInfo pru st g])) := by
  by_cases hw : request.with_status_info
  · simp only [proposePhase, hw, if_true] at h
    cases hp : eng.proposeMove (drawSeed request.produce_rand amb).1 st g with
    | error why => simp only [hp] at h; exact absurd h (by simp)
    | ok v =>
        simp only [hp, Except.ok.injEq, Prod.mk.injEq] at h
        obtain ⟨⟨rfl, rfl, rfl, rfl⟩, rfl⟩ := h
        exact ⟨rfl, rfl, by simp [hw], Or.inl ⟨hw, v.2, rfl, by rw [hp], rfl⟩⟩
  · simp only [proposePhase, hw, if_false, Bool.false_eq_true] at h
    cases hp : eng.proposeMoveWithoutInfo (drawSeed request.produce_rand amb).1
        st g with
    | error why => simp only [hp] at h; exact absurd h (by simp)
    | ok a =>
        simp only [hp, Except.ok.injEq, Prod.mk.injEq] at h
        obtain ⟨⟨rfl, rfl, rfl, rfl⟩, rfl⟩ := h
        exact ⟨rfl, rfl, by simp [hw], Or.inr ⟨by simp [hw], rfl, hp, rfl⟩⟩

/-- Helper: inversion of a successful `finishPhase`: the response echoes
the proposed move in canonical UCI form, the position obtained by the
legality-checked application of that move, the status info, the recorded
seeds, and the state updated by the final `observe_move` call, whose log
entry is the phase's whole log. -/
theorem finishPhase_ok_inv
    {ops : ChessOps Board Move UciT}
    {eng : Engine State StatusInfo Error Move Board}
    {request : EngineRequest State Board UciT}
    {st : State} {g : Board} {o : Option Nat} {pm : Move}
    {info : Option StatusInfo} {pru : Nat} {amb : List Nat}
    {resp : EngineResponse State StatusInfo Board UciT}
    (h : (finishPhase ops eng request st g o pm info pru amb).1 =
      EngineResult.ok resp) :
    resp.move = ops.toUci pm ∧
    ops.play g pm = Except.ok resp.game_after ∧
    resp.status_info = info ∧
    resp.observe_other_rand_used = o ∧
    resp.produce_rand_used = pru ∧
    resp.observe_mine_rand_used = (drawSeed request.observe_your_rand amb).1 ∧
    eng.observeMove resp.observe_mine_rand_used st pm resp.game_after =
      Except.ok resp.engine_state ∧
    (finishPhase ops eng request st g o pm info pru amb).2 =
      [EngineCall.observe resp.observe_mine_rand_used pm resp.game_after] := by
  cases hplay : ops.play g pm with
  | error e =>
      exfalso
      simp only [finishPhase, hplay] at h
      exact absurd h (by simp)
  | ok gam =>
      cases hob : eng.observeMove (drawSeed request.observe_your_rand amb).1
          st pm gam with
      | error why =>
          exfalso
          simp only [finishPhase, hplay, hob] at h
          exact absurd h (by simp)
      | ok s2 =>
          simp only [finishPhase, hplay, hob, EngineResult.ok.injEq] at h
          subst h
          exact ⟨rfl, rfl, rfl, rfl, rfl, rfl, hob,
            by simp [finishPhase, hplay, hob]⟩

/-- Helper: inversion of a successful `handle_move` run: it decomposes into
a successful `observePhase`, a successful `proposePhase` and a
`finishPhase` producing the response, with the run's call log the
concatenation of the three phase logs. -/
theorem handleMove_ok_inv [DecidableEq UciT]
    {ops : ChessOps Board Move UciT}
    {eng : Engine State StatusInfo Error Move Board}
    {request : EngineRequest State Board UciT} {amb : List Nat}
    {resp : EngineResponse State StatusInfo Board UciT}
    (h : (handleMove ops eng request amb).1 = EngineResult.ok resp) :
    ∃ s1 g o amb1 log1 pm info pru amb2 log2,
      observePhase ops eng request amb = Except.ok ((s1, g, o, amb1), log1) ∧
      proposePhase eng request s1 g amb1 =
        Except.ok ((pm, info, pru, amb2), log2) ∧
      (finishPhase ops eng request s1 g o pm info pru amb2).1 =
        EngineResult.ok resp ∧
      (handleMove ops eng request amb).2 =
        log1 ++ log2 ++ (finishPhase ops eng request s1 g o pm info pru amb2).2 := by
  cases hobs : observePhase ops eng request amb with
  | error r =>
      exfalso
      have hrr := observePhase_error_isErr hobs
      unfold handleMove at h
      rw [hobs] at h
      simp only at h
      rw [h] at hrr
      simp [EngineResult.isErr] at hrr
  | ok x =>
      obtain ⟨⟨s1, g, o, amb1⟩, log1⟩ := x
      cases hpp : proposePhase eng request s1 g amb1 with
      | error r =>
          exfalso
          have hrr := proposePhase_error_isErr hpp
          unfold handleMove at h
          rw [hobs] at h
          simp only at h
          rw [hpp] at h
          simp only at h
          rw [h] at hrr
          simp [EngineResult.isErr] at hrr
      | ok y =>
          obtain ⟨⟨pm, info, pru, amb2⟩, log2⟩ := y
          refine ⟨s1, g, o, amb1, log1, pm, info, pru, amb2, log2, rfl, hpp,
            ?_, ?_⟩
          · unfold handleMove at h
            rw [hobs] at h
            simp only [hpp] at h
            simpa using h
          · unfold handleMove
            rw [hobs]
            simp only [hpp]

/-- Helper: `proposePhase` makes exactly one engine call, a propose call
(never an `observe_move`) receiving the given position. -/
theorem proposePhase_log_eq
    (eng : Engine State StatusInfo Error Move Board)
    (request : EngineRequest State Board UciT)
    (st : State) (g : Board) (amb : List Nat) :
    ∃ c : EngineCall State Move Board,
      EngineCall.isObserve c = false ∧
      EngineCall.proposedPosition? c = some g ∧
      ((∃ r, proposePhase eng request st g amb = Except.error (r, [c])) ∨
       (∃ x, proposePhase eng request st g amb = Except.ok (x, [c]))) := by
  by_cases hw : request.with_status_info
  · cases hp : eng.proposeMove (drawSeed request.produce_rand amb).1 st g with
    | ok v =>
        exact ⟨EngineCall.propose (drawSeed request.produce_rand amb).1 st g,
          rfl, rfl, Or.inr ⟨(v.1, some v.2, (drawSeed request.produce_rand amb).1,
            (drawSeed request.produce_rand amb).2), by simp [proposePhase, hw, hp]⟩⟩
    | error why =>
        exact ⟨EngineCall.propose (drawSeed request.produce_rand amb).1 st g,
          rfl, rfl, Or.inl ⟨EngineResult.engineError why,
            by simp [proposePhase, hw, hp]⟩⟩
  · cases hp : eng.proposeMoveWithoutInfo (drawSeed request.produce_rand amb).1
        st g with
    | ok a =>
        exact ⟨EngineCall.proposeWithoutInfo (drawSeed request.produce_rand amb).1
          st g, rfl, rfl, Or.inr ⟨(a, none, (drawSeed request.produce_rand amb).1,
            (drawSeed request.produce_rand amb).2), by simp [proposePhase, hw, hp]⟩⟩
    | error why =>
        exact ⟨EngineCall.proposeWithoutInfo (drawSeed request.produce_rand amb).1
          st g, rfl, rfl, Or.inl ⟨EngineResult.engineError why,
            by simp [proposePhase, hw, hp]⟩⟩

/-- Helper: `finishPhase` logs at most one engine call, and when it logs
one it is an `observe_move` call. -/
theorem finishPhase_log_cases
    (ops : ChessOps Board Move UciT)
    (eng : Engine State StatusInfo Error Move Board)
    (request : EngineRequest State Board UciT)
    (st : State) (g : Board) (o : Option Nat) (pm : Move)
    (info : Option StatusInfo) (pru : Nat) (amb : List Nat) :
    (finishPhase ops eng request st g o pm info pru amb).2 = [] ∨
    ∃ r m b, (finishPhase ops eng request st g o pm info pru amb).2 =
      [EngineCall.observe r m b] := by
  cases hplay : ops.play g pm with
  | error e => left; simp [finishPhase, hplay]
  | ok gam =>
      cases hob : eng.observeMove (drawSeed request.observe_your_rand amb).1
          st pm gam with
      | error why =>
          right
          exact ⟨(drawSeed request.observe_your_rand amb).1, pm, gam,
            by simp [finishPhase, hplay, hob]⟩
      | ok s2 =>
          right
          exact ⟨(drawSeed request.observe_your_rand amb).1, pm, gam,
            by simp [finishPhase, hplay, hob]⟩

/-- C4: a request whose non-null move token does not parse as a move legal
in `game_before` terminates with the request-level error
`PositionMoveMismatch`, and no engine operation at all is invoked in that
run (the engine-call log is empty). -/
theorem handleMove_positionMoveMismatch [DecidableEq UciT]
    (ops : ChessOps Board Move UciT)
    (eng : Engine State StatusInfo Error Move Board)
    (request : EngineRequest State Board UciT) (amb : List Nat)
    (hne : request.move ≠ ops.nullUci)
    (hparse : ops.toMove request.move request.game_before = Except.error ()) :
    (handleMove ops eng request amb).1 =
      EngineResult.requestError EngineRequestError.positionMoveMismatch ∧
    (handleMove ops eng request amb).2 = [] := by
  have hobs : observePhase ops eng request amb =
      Except.error
        (EngineResult.requestError EngineRequestError.positionMoveMismatch,
          []) := by
    simp [observePhase, hne, hparse]
  unfold handleMove
  rw [hobs]
  exact ⟨rfl, rfl⟩

/-- Witness: the concrete request submitting the unparsable token
`TUci.mu 9` yields `PositionMoveMismatch` with an empty engine-call log. -/
theorem handleMove_positionMoveMismatch_witness :
    (handleMove tOps tEngGood reqBadMove []).1 =
      EngineResult.requestError EngineRequestError.positionMoveMismatch ∧
    (handleMove tOps tEngGood reqBadMove []).2 = [] :=
  handleMove_positionMoveMismatch tOps tEngGood reqBadMove []
    (by decide) rfl

/-- C10: when `handle_move` terminates with any error (request-level or
engine-level), the result carries no response and hence no engine state:
the caller that keeps its externally held state unchanged except on success
retains exactly the state it sent in the request. -/
theorem handleMove_error_discards_state [DecidableEq UciT]
    (ops : ChessOps Board Move UciT)
    (eng : Engine State StatusInfo Error Move Board)
    (request : EngineRequest State Board UciT) (amb : List Nat)
    (herr : ((handleMove ops eng request amb).1).isErr = true) :
    returnedEngineState (handleMove ops eng request amb).1 = none ∧
    callerNextState request.engine_state (handleMove ops eng request amb).1 =
      request.engine_state := by
  cases hr : (handleMove ops eng request amb).1 with
  | requestError e => exact ⟨rfl, rfl⟩
  | engineError e => exact ⟨rfl, rfl⟩
  | ok r =>
      rw [hr] at herr
      simp [EngineResult.isErr] at herr

/-- Witness: the failing concrete run returns no engine state and leaves
the caller's held state untouched. -/
theorem handleMove_error_discards_state_witness :
    ((handleMove tOps tEngGood reqBadMove []).1).isErr = true ∧
    (returnedEngineState (handleMove tOps tEngGood reqBadMove []).1 = none ∧
     callerNextState reqBadMove.engine_state
       (handleMove tOps tEngGood reqBadMove []).1 = reqBadMove.engine_state) :=
  ⟨by decide,
   handleMove_error_discards_state tOps tEngGood reqBadMove [] (by decide)⟩

/-- C7: the default implementation of `propose_move_without_info` is
exactly `propose_move` with the StatusInfo component discarded: it returns
`Ok m` precisely when `propose_move` returns `Ok (m, i)` for some `i`, and
returns `Err e` precisely when `propose_move` returns `Err e`. -/
theorem defaultProposeMoveWithoutInfo_equiv
    (eng : Engine State StatusInfo Error Move Board)
    (rand : Nat) (current_state : State) (current_position : Board) :
    (∀ m : Move,
      defaultProposeMoveWithoutInfo eng rand current_state current_position =
          Except.ok m ↔
        ∃ i : StatusInfo,
          eng.proposeMove rand current_state current_position =
            Except.ok (m, i)) ∧
    (∀ er : Error,
      defaultProposeMoveWithoutInfo eng rand current_state current_position =
          Except.error er ↔
        eng.proposeMove rand current_state current_position =
          Except.error er) := by
  cases hp : eng.proposeMove rand current_state current_position with
  | ok v =>
      obtain ⟨m0, i0⟩ := v
      constructor
      · intro m
        constructor
        · intro hm
          simp [defaultProposeMoveWithoutInfo, hp, Except.bind] at hm
          exact ⟨i0, by rw [hm]⟩
        · rintro ⟨i, hi⟩
          simp only [Except.ok.injEq, Prod.mk.injEq] at hi
          obtain ⟨rfl, rfl⟩ := hi
          simp [defaultProposeMoveWithoutInfo, hp, Except.bind]
      · intro er
        simp [defaultProposeMoveWithoutInfo, hp, Except.bind]
  | error e0 =>
      constructor
      · intro m
        simp [defaultProposeMoveWithoutInfo, hp, Except.bind]
      · intro er
        simp [defaultProposeMoveWithoutInfo, hp, Except.bind]

/-- C3: a request whose move is the null-move sentinel skips the
observe-opponent step entirely: the first engine call of the run is a
propose call receiving `game_before` unchanged (no `observe_move` precedes
it), at most one `observe_move` happens in the whole run (for the engine's
own move), and a successful response reports no observe-opponent seed even
when the request supplied an `observe_mine_rand` value. -/
theorem handleMove_nullMove [DecidableEq UciT]
    (ops : ChessOps Board Move UciT)
    (eng : Engine State StatusInfo Error Move Board)
    (request : EngineRequest State Board UciT) (amb : List Nat)
    (hnull : request.move = ops.nullUci) :
    ((handleMove ops eng request amb).2.filter EngineCall.isObserve).length ≤ 1 ∧
    ((handleMove ops eng request amb).2.head?.bind EngineCall.proposedPosition?) =
      some request.game_before ∧
    (∀ resp, (handleMove ops eng request amb).1 = EngineResult.ok resp →
      resp.observe_other_rand_used = none) := by
  have hobs : observePhase ops eng request amb =
      Except.ok ((request.engine_state, request.game_before, none, amb), []) := by
    simp [observePhase, hnull]
  obtain ⟨c, hcObs, hcPos, hc⟩ :=
    proposePhase_log_eq eng request request.engine_state request.game_before amb
  rcases hc with ⟨r, hpe⟩ | ⟨x, hpo⟩
  · have hres : handleMove ops eng request amb = (r, [] ++ [c]) := by
      unfold handleMove
      rw [hobs]
      simp only [hpe]
    rw [hres]
    refine ⟨by simp [hcObs], by simp [hcPos], ?_⟩
    intro resp hr
    exfalso
    have := proposePhase_error_isErr hpe
    simp only at hr
    rw [hr] at this
    simp [EngineResult.isErr] at this
  · obtain ⟨pm, info, pru, amb2⟩ := x
    have hres : handleMove ops eng request amb =
        ((finishPhase ops eng request request.engine_state request.game_before
            none pm info pru amb2).1,
          [] ++ [c] ++ (finishPhase ops eng request request.engine_state
            request.game_before none pm info pru amb2).2) := by
      unfold handleMove
      rw [hobs]
      simp only [hpo]
    rw [hres]
    refine ⟨?_, by simp [hcPos], ?_⟩
    · have hfilter : ∀ rest : List (EngineCall State Move Board),
          List.filter EngineCall.isObserve (c :: rest) =
            List.filter EngineCall.isObserve rest := by
        intro rest
        simp [List.filter_cons, hcObs]
      rcases finishPhase_log_cases ops eng request request.engine_state
          request.game_before none pm info pru amb2 with hfl | ⟨r3, m3, b3, hfl⟩ <;>
        simp [hfl, hfilter, EngineCall.isObserve]
    · intro resp hr
      simp only at hr
      exact (finishPhase_ok_inv hr).2.2.2.1

/-- Witness: the concrete null-move request (which supplies an
`observe_mine_rand` seed) runs with a propose call first on the unchanged
position, a single `observe_move` call, and reports no observe-opponent
seed. -/
theorem handleMove_nullMove_witness :
    ((handleMove tOps tEngGood reqNull []).2.filter
      EngineCall.isObserve).length ≤ 1 ∧
    ((handleMove tOps tEngGood reqNull []).2.head?.bind
      EngineCall.proposedPosition?) = some reqNull.game_before ∧
    (∀ resp, (handleMove tOps tEngGood reqNull []).1 = EngineResult.ok resp →
      resp.observe_other_rand_used = none) :=
  handleMove_nullMove tOps tEngGood reqNull [] rfl

/-- Helper: with the observe-opponent seed supplied by the caller,
`observePhase` never consumes the ambient randomness stream: its outcome
under one stream transfers verbatim to any other stream. -/
theorem observePhase_seeded [DecidableEq UciT]
    {ops : ChessOps Board Move UciT}
    {eng : Engine State StatusInfo Error Move Board}
    {request : EngineRequest State Board UciT} {v : Nat}
    (hv : request.observe_mine_rand = some v) (ambA ambB : List Nat) :
    (∀ r, observePhase ops eng request ambA = Except.error r →
      observePhase ops eng request ambB = Except.error r) ∧
    (∀ s1 g o log1, ∀ amb1 : List Nat,
      observePhase ops eng request ambA = Except.ok ((s1, g, o, amb1), log1) →
      amb1 = ambA ∧
      observePhase ops eng request ambB =
        Except.ok ((s1, g, o, ambB), log1)) := by
  have hd1 : ∀ amb : List Nat, (drawSeed request.observe_mine_rand amb).1 = v := by
    intro amb
    simp [drawSeed, hv]
  by_cases hnull : request.move = ops.nullUci
  · constructor
    · intro r hr
      simp [observePhase, hnull] at hr
    · intro s1 g o log1 amb1 hr
      simp only [observePhase, hnull] at hr ⊢
      simp only [ne_eq, not_true_eq_false, if_false, Except.ok.injEq,
        Prod.mk.injEq] at hr ⊢
      obtain ⟨⟨rfl, rfl, rfl, rfl⟩, rfl⟩ := hr
      simp
  · cases hto : ops.toMove request.move request.game_before with
    | error e =>
        constructor
        · intro r hr
          simp only [observePhase, hnull, ne_eq, not_false_eq_true, if_true,
            hto] at hr ⊢
          exact hr
        · intro s1 g o log1 amb1 hr
          simp only [observePhase, hnull, ne_eq, not_false_eq_true, if_true,
            hto] at hr
          exact absurd hr (by simp)
    | ok um =>
        cases hob : eng.observeMove v request.engine_state um
            (ops.playUnchecked request.game_before um) with
        | error why =>
            constructor
            · intro r hr
              simp only [observePhase, hnull, ne_eq, not_false_eq_true,
                if_true, hto, hd1, hob] at hr ⊢
              exact hr
            · intro s1 g o log1 amb1 hr
              simp only [observePhase, hnull, ne_eq, not_false_eq_true,
                if_true, hto, hd1, hob] at hr
              exact absurd hr (by simp)
        | ok s1' =>
            constructor
            · intro r hr
              simp only [observePhase, hnull, ne_eq, not_false_eq_true,
                if_true, hto, hd1, hob] at hr
              exact absurd hr (by simp)
            · intro s1 g o log1 amb1 hr
              have hd2 : ∀ amb : List Nat,
                  (drawSeed request.observe_mine_rand amb).2 = amb := by
                intro amb
                simp [drawSeed, hv]
              simp only [observePhase, hnull, ne_eq, not_false_eq_true,
                if_true, hto, hd1, hd2, hob, Except.ok.injEq,
                Prod.mk.injEq] at hr ⊢
              obtain ⟨⟨rfl, rfl, rfl, rfl⟩, rfl⟩ := hr
              simp

/-- Helper: with the produce seed supplied by the caller, `proposePhase`
never consumes the ambient randomness stream: its outcome under one stream
transfers verbatim to any other stream. -/
theorem proposePhase_seeded
    {eng : Engine State StatusInfo Error Move Board}
    {request : EngineRequest State Board UciT}
    {st : State} {g : Board} {v : Nat}
    (hv : request.produce_rand = some v) (ambA ambB : List Nat) :
    (∀ r, proposePhase eng request st g ambA = Except.error r →
      proposePhase eng request st g ambB = Except.error r) ∧
    (∀ pm info pru log2, ∀ amb2 : List Nat,
      proposePhase eng request st g ambA =
        Except.ok ((pm, info, pru, amb2), log2) →
      proposePhase eng request st g ambB =
        Except.ok ((pm, info, pru, ambB), log2)) := by
  have hd1 : ∀ amb : List Nat, (drawSeed request.produce_rand amb).1 = v := by
    intro amb
    simp [drawSeed, hv]
  have hd2 : ∀ amb : List Nat, (drawSeed request.produce_rand amb).2 = amb := by
    intro amb
    simp [drawSeed, hv]
  by_cases hw : request.with_status_info
  · cases hp : eng.proposeMove v st g with
    | error why =>
        constructor
        · intro r hr
          simp only [proposePhase, hw, if_true, hd1, hp] at hr ⊢
          exact hr
        · intro pm info pru log2 amb2 hr
          simp only [proposePhase, hw, if_true, hd1, hp] at hr
          exact absurd hr (by simp)
    | ok w =>
        constructor
        · intro r hr
          simp only [proposePhase, hw, if_true, hd1, hp] at hr
          exact absurd hr (by simp)
        · intro pm info pru log2 amb2 hr
          simp only [proposePhase, hw, if_true, hd1, hd2, hp,
            Except.ok.injEq, Prod.mk.injEq] at hr ⊢
          obtain ⟨⟨rfl, rfl, rfl, rfl⟩, rfl⟩ := hr
          simp
  · cases hp : eng.proposeMoveWithoutInfo v st g with
    | error why =>
        constructor
        · intro r hr
          simp only [proposePhase, hw, if_false, Bool.false_eq_true, hd1,
            hp] at hr ⊢
          exact hr
        · intro pm info pru log2 amb2 hr
          simp only [proposePhase, hw, if_false, Bool.false_eq_true, hd1,
            hp] at hr
          exact absurd hr (by simp)
    | ok a =>
        constructor
        · intro r hr
          simp only [proposePhase, hw, if_false, Bool.false_eq_true, hd1,
            hp] at hr
          exact absurd hr (by simp)
        · intro pm info pru log2 amb2 hr
          simp only [proposePhase, hw, if_false, Bool.false_eq_true, hd1,
            hd2, hp, Except.ok.injEq, Prod.mk.injEq] at hr ⊢
          obtain ⟨⟨rfl, rfl, rfl, rfl⟩, rfl⟩ := hr
          simp

/-- Helper: with the observe-own seed supplied by the caller, `finishPhase`
is independent of the ambient randomness stream. -/
theorem finishPhase_seeded
    {ops : ChessOps Board Move UciT}
    {eng : Engine State StatusInfo Error Move Board}
    {request : EngineRequest State Board UciT}
    {st : State} {g : Board} {o : Option Nat} {pm : Move}
    {info : Option StatusInfo} {pru : Nat} {v : Nat}
    (hv : request.observe_your_rand = some v) (ambA ambB : List Nat) :
    finishPhase ops eng request st g o pm info pru ambA =
      finishPhase ops eng request st g o pm info pru ambB := by
  have hd1 : ∀ amb : List Nat,
      (drawSeed request.observe_your_rand amb).1 = v := by
    intro amb
    simp [drawSeed, hv]
  simp only [finishPhase, hd1]

/-- C1: determinism of the orchestrator.  Engine operations are
deterministic functions of (seed, state, position/move) in this embedding,
per the trait's reproducibility contract.  When the request supplies
`engine_state`, `game_before`, the move, `with_status_info` and all three
seed fields, two `handle_move` runs on that identical request, against
engine instances given by the same operations, produce identical outcomes
(bit-identical responses, or identical errors) and identical engine-call
logs, whatever ambient process randomness each run would otherwise have
drawn. -/
theorem handleMove_deterministic [DecidableEq UciT]
    (ops : ChessOps Board Move UciT)
    (eng : Engine State StatusInfo Error Move Board)
    (request : EngineRequest State Board UciT) (ambA ambB : List Nat)
    {v1 v2 v3 : Nat}
    (h1 : request.observe_mine_rand = some v1)
    (h2 : request.produce_rand = some v2)
    (h3 : request.observe_your_rand = some v3) :
    (handleMove ops eng request ambA).1 = (handleMove ops eng request ambB).1 ∧
    (handleMove ops eng request ambA).2 = (handleMove ops eng request ambB).2 := by
  cases hobs : observePhase ops eng request ambA with
  | error r =>
      have hB := (observePhase_seeded h1 ambA ambB).1 r hobs
      unfold handleMove
      rw [hobs, hB]
      exact ⟨rfl, rfl⟩
  | ok x =>
      obtain ⟨⟨s1, g, o, amb1⟩, log1⟩ := x
      obtain ⟨-, hB⟩ :=
        (observePhase_seeded h1 ambA ambB).2 s1 g o log1 amb1 hobs
      cases hpp : proposePhase eng request s1 g amb1 with
      | error r =>
          have hpB := (proposePhase_seeded h2 amb1 ambB).1 r hpp
          unfold handleMove
          rw [hobs, hB]
          simp only [hpp, hpB]
          exact ⟨trivial, trivial⟩
      | ok y =>
          obtain ⟨⟨pm, info, pru, amb2⟩, log2⟩ := y
          have hpB :=
            (proposePhase_seeded h2 amb1 ambB).2 pm info pru log2 amb2 hpp
          unfold handleMove
          rw [hobs, hB]
          simp only [hpp, hpB]
          rw [finishPhase_seeded h3 amb2 ambB]
          exact ⟨rfl, rfl⟩

/-- Witness: the concrete fully-seeded request produces the same outcome
and the same call log under two different ambient randomness streams. -/
theorem handleMove_deterministic_witness :
    (handleMove tOps tEngGood reqMove2 [7, 8, 9]).1 =
      (handleMove tOps tEngGood reqMove2 [11, 12, 13]).1 ∧
    (handleMove tOps tEngGood reqMove2 [7, 8, 9]).2 =
      (handleMove tOps tEngGood reqMove2 [11, 12, 13]).2 :=
  handleMove_deterministic tOps tEngGood reqMove2 [7, 8, 9] [11, 12, 13]
    rfl rfl rfl

/-- C5: when a run reaches the propose step and the engine's proposed move
is illegal in the post-opponent-move position, `handle_move` terminates
with the request-level error `EngineSentIllegalMove` carrying that move in
canonical UCI form: no response is produced, and the observe-own-move call
never happens (the run's `observe_move` calls are exactly those of the
opponent phase). -/
theorem handleMove_engineIllegalMove [DecidableEq UciT]
    (ops : ChessOps Board Move UciT)
    (eng : Engine State StatusInfo Error Move Board)
    (request : EngineRequest State Board UciT) (amb : List Nat)
    {s1 : State} {g : Board} {o : Option Nat} {amb1 : List Nat}
    {log1 : List (EngineCall State Move Board)}
    {pm : Move} {info : Option StatusInfo} {pru : Nat} {amb2 : List Nat}
    {log2 : List (EngineCall State Move Board)}
    (hobs : observePhase ops eng request amb =
      Except.ok ((s1, g, o, amb1), log1))
    (hpp : proposePhase eng request s1 g amb1 =
      Except.ok ((pm, info, pru, amb2), log2))
    (hillegal : ops.play g pm = Except.error ()) :
    (handleMove ops eng request amb).1 =
      EngineResult.requestError
        (EngineRequestError.engineSentIllegalMove (ops.toUci pm)) ∧
    (handleMove ops eng request amb).2 = log1 ++ log2 ∧
    (handleMove ops eng request amb).2.filter EngineCall.isObserve =
      log1.filter EngineCall.isObserve := by
  have hfin : finishPhase ops eng request s1 g o pm info pru amb2 =
      (EngineResult.requestError
        (EngineRequestError.engineSentIllegalMove (ops.toUci pm)), []) := by
    simp [finishPhase, hillegal]
  have hres : handleMove ops eng request amb =
      (EngineResult.requestError
        (EngineRequestError.engineSentIllegalMove (ops.toUci pm)),
        log1 ++ log2 ++ []) := by
    unfold handleMove
    rw [hobs]
    simp only [hpp, hfin]
  have hlog2filter : log2.filter EngineCall.isObserve = [] := by
    rcases (proposePhase_ok_inv hpp).2.2.2 with ⟨-, i, -, -, rfl⟩ | ⟨-, -, -, rfl⟩ <;>
      simp [List.filter_cons, EngineCall.isObserve]
  rw [hres]
  exact ⟨rfl, by simp, by simp [List.filter_append, hlog2filter]⟩

/-- Witness: the concrete engine proposing the illegal move 7 yields
`EngineSentIllegalMove` with the move echoed, and the only `observe_move`
call of the run is the opponent-phase one. -/
theorem handleMove_engineIllegalMove_witness :
    (handleMove tOps tEngIllegal reqMove2 []).1 =
      EngineResult.requestError
        (EngineRequestError.engineSentIllegalMove (tOps.toUci 7)) ∧
    (handleMove tOps tEngIllegal reqMove2 []).2 =
      [EngineCall.observe 3 2 2] ++ [EngineCall.propose 4 123 2] ∧
    (handleMove tOps tEngIllegal reqMove2 []).2.filter EngineCall.isObserve =
      List.filter EngineCall.isObserve [EngineCall.observe 3 2 2] :=
  handleMove_engineIllegalMove tOps tEngIllegal reqMove2 [] rfl rfl rfl

/-- C9: in every successful run the returned `engine_state` is obtained
from the request's `engine_state` by replaying only the `observe_move`
calls recorded in the log (at most two of them); the propose step, which
receives the state by shared non-mutable reference, contributes no
update. -/
theorem handleMove_state_via_observes [DecidableEq UciT]
    (ops : ChessOps Board Move UciT)
    (eng : Engine State StatusInfo Error Move Board)
    (request : EngineRequest State Board UciT) (amb : List Nat)
    {resp : EngineResponse State StatusInfo Board UciT}
    (hok : (handleMove ops eng request amb).1 = EngineResult.ok resp) :
    resp.engine_state =
      ((handleMove ops eng request amb).2.filterMap observeArg).foldl
        (stepObserve eng) request.engine_state ∧
    ((handleMove ops eng request amb).2.filterMap observeArg).length ≤ 2 := by
  obtain ⟨s1, g, o, amb1, log1, pm, info, pru, amb2, log2, hobs, hpp, hfin,
    hlog⟩ := handleMove_ok_inv hok
  have hlog2 : log2.filterMap observeArg = [] := by
    rcases (proposePhase_ok_inv hpp).2.2.2 with ⟨-, i, -, -, rfl⟩ | ⟨-, -, -, rfl⟩ <;>
      simp [observeArg]
  obtain ⟨hm, hplay, hinfo, ho, hpru, homru, hob2, hflog⟩ :=
    finishPhase_ok_inv hfin
  rcases observePhase_ok_inv hobs with
    ⟨hnull, rfl, rfl, rfl, rfl, rfl⟩ | ⟨hne, um, hto, rfl, rfl, rfl, hob1, rfl⟩
  · rw [hlog, hflog]
    constructor
    · simp [List.filterMap_append, hlog2, observeArg, stepObserve, hob2]
    · simp [List.filterMap_append, hlog2, observeArg]
  · rw [hlog, hflog]
    constructor
    · simp [List.filterMap_append, hlog2, observeArg, stepObserve, hob1, hob2]
    · simp [List.filterMap_append, hlog2, observeArg]

/-- Witness: the concrete successful run's final state 138 is the fold of
the two logged `observe_move` calls over the request's state 100. -/
theorem handleMove_state_via_observes_witness :
    (handleMove tOps tEngGood reqMove2 []).1 = EngineResult.ok
      { move := TUci.mu 1, game_after := 3, status_info := some (),
        observe_other_rand_used := some 3, produce_rand_used := 4,
        observe_mine_rand_used := 5, engine_state := 138 } ∧
    ((138 : Nat) =
      ((handleMove tOps tEngGood reqMove2 []).2.filterMap observeArg).foldl
        (stepObserve tEngGood) reqMove2.engine_state ∧
     ((handleMove tOps tEngGood reqMove2 []).2.filterMap observeArg).length ≤ 2) :=
  ⟨rfl, handleMove_state_via_observes tOps tEngGood reqMove2 [] rfl⟩

/-- C6: shape of every successful response: the proposed move is echoed in
canonical UCI text; `game_after` is the legality-checked application of the
proposed move to the post-opponent-move position; `status_info` is present
exactly when the request set `with_status_info`; the reported seeds are the
ones actually passed to the engine (the observe-opponent seed present only
when that step ran, each equal to the caller-supplied seed when one was
supplied); and `engine_state` is the state as updated by the final
`observe_move` call. -/
theorem handleMove_response_fields [DecidableEq UciT]
    (ops : ChessOps Board Move UciT)
    (eng : Engine State StatusInfo Error Move Board)
    (request : EngineRequest State Board UciT) (amb : List Nat)
    {resp : EngineResponse State StatusInfo Board UciT}
    (hok : (handleMove ops eng request amb).1 = EngineResult.ok resp) :
    ∃ s1 g o amb1 log1 pm,
      observePhase ops eng request amb = Except.ok ((s1, g, o, amb1), log1) ∧
      resp.move = ops.toUci pm ∧
      ops.play g pm = Except.ok resp.game_after ∧
      resp.status_info.isSome = request.with_status_info ∧
      resp.observe_other_rand_used = o ∧
      (request.move = ops.nullUci → resp.observe_other_rand_used = none) ∧
      (∀ v, request.move ≠ ops.nullUci → request.observe_mine_rand = some v →
        resp.observe_other_rand_used = some v) ∧
      (∀ v, request.produce_rand = some v → resp.produce_rand_used = v) ∧
      (∀ v, request.observe_your_rand = some v →
        resp.observe_mine_rand_used = v) ∧
      (request.with_status_info = true →
        ∃ i, eng.proposeMove resp.produce_rand_used s1 g =
          Except.ok (pm, i)) ∧
      (request.with_status_info = false →
        eng.proposeMoveWithoutInfo resp.produce_rand_used s1 g =
          Except.ok pm) ∧
      eng.observeMove resp.observe_mine_rand_used s1 pm resp.game_after =
        Except.ok resp.engine_state := by
  obtain ⟨s1, g, o, amb1, log1, pm, info, pru, amb2, log2, hobs, hpp, hfin,
    hlog⟩ := handleMove_ok_inv hok
  obtain ⟨hpru', hamb2, hisSome, hdisj⟩ := proposePhase_ok_inv hpp
  obtain ⟨hm, hplay, hinfo, ho, hpru, homru, hob2, hflog⟩ :=
    finishPhase_ok_inv hfin
  refine ⟨s1, g, o, amb1, log1, pm, hobs, hm, hplay, ?_, ho, ?_, ?_, ?_, ?_,
    ?_, ?_, hob2⟩
  · rw [hinfo, hisSome]
  · intro hnull
    rcases observePhase_ok_inv hobs with ⟨-, -, -, rfl, -, -⟩ | ⟨hne, -⟩
    · exact ho
    · exact absurd hnull hne
  · intro v hne hv
    rcases observePhase_ok_inv hobs with ⟨hnull, -⟩ | ⟨-, um, -, -, rfl, -⟩
    · exact absurd hnull hne
    · rw [ho]
      simp [drawSeed, hv]
  · intro v hv
    rw [hpru, hpru']
    simp [drawSeed, hv]
  · intro v hv
    rw [homru]
    simp [drawSeed, hv]
  · intro hw
    rcases hdisj with ⟨-, i, -, hprop, -⟩ | ⟨hwf, -⟩
    · rw [hpru]
      exact ⟨i, hprop⟩
    · rw [hw] at hwf
      exact absurd hwf (by simp)
  · intro hw
    rcases hdisj with ⟨hwt, -⟩ | ⟨-, -, hprop, -⟩
    · rw [hw] at hwt
      exact absurd hwt (by simp)
    · rw [hpru]
      exact hprop

/-- Witness: the concrete successful run's response has all the fields the
response-assembly theorem describes. -/
theorem handleMove_response_fields_witness :
    (handleMove tOps tEngGood reqMove2 []).1 = EngineResult.ok
      { move := TUci.mu 1, game_after := 3, status_info := some (),
        observe_other_rand_used := some 3, produce_rand_used := 4,
        observe_mine_rand_used := 5, engine_state := 138 } ∧
    (∃ s1 g o amb1 log1 pm,
      observePhase tOps tEngGood reqMove2 [] = Except.ok ((s1, g, o, amb1), log1) ∧
      TUci.mu 1 = tOps.toUci pm ∧
      tOps.play g pm = Except.ok 3 ∧
      (some ()).isSome = reqMove2.with_status_info ∧
      (some 3 : Option Nat) = o ∧
      (reqMove2.move = tOps.nullUci → (some 3 : Option Nat) = none) ∧
      (∀ v, reqMove2.move ≠ tOps.nullUci → reqMove2.observe_mine_rand = some v →
        (some 3 : Option Nat) = some v) ∧
      (∀ v, reqMove2.produce_rand = some v → 4 = v) ∧
      (∀ v, reqMove2.observe_your_rand = some v → 5 = v) ∧
      (reqMove2.with_status_info = true →
        ∃ i, tEngGood.proposeMove 4 s1 g = Except.ok (pm, i)) ∧
      (reqMove2.with_status_info = false →
        tEngGood.proposeMoveWithoutInfo 4 s1 g = Except.ok pm) ∧
      tEngGood.observeMove 5 s1 pm 3 = Except.ok 138) :=
  ⟨rfl, handleMove_response_fields tOps tEngGood reqMove2 [] rfl⟩

/-- C2 counterexample: it is not true that every mutex-respecting schedule
of two concurrent `handle_move` runs keeps all engine calls of one request
before all engine calls of the other.  The lock traces of the two concrete
runs (three and two engine calls, each call in its own lock block per
src/server.rs) admit the valid schedule `cexSched`, in which request
`true` performs its first engine call between the first and second engine
calls of request `false`. -/
theorem handleMove_lock_interleaving_cex :
    ¬ (∀ s : List SchedEvent,
        validSchedule s
          (lockTrace (handleMove tOps tEngGood reqMove2 []).2.length)
          (lockTrace (handleMove tOps tEngGood reqNull []).2.length) →
        isSerial (callSeq s) = true) := by
  intro hall
  have h := hall cexSched ⟨by decide, by decide, by decide⟩
  exact absurd h (by decide)

/-- C2 amended: the mutex is acquired separately for each engine call
rather than once per request: the lock trace of a `handle_move` run
acquires the lock exactly once per engine call (so it is free between a
request's consecutive engine calls), and running that trace alone
satisfies the mutex semantics with every engine call made while holding
the lock, ending with the lock free. -/
theorem handleMove_lock_per_operation [DecidableEq UciT]
    (ops : ChessOps Board Move UciT)
    (eng : Engine State StatusInfo Error Move Board)
    (request : EngineRequest State Board UciT) (amb : List Nat) (b : Bool) :
    lockRun none
      (tagAll b (lockTrace (handleMove ops eng request amb).2.length)) =
      some none ∧
    countAcquires (lockTrace (handleMove ops eng request amb).2.length) =
      (handleMove ops eng request amb).2.length :=
  ⟨lockRun_tagAll_lockTrace b (handleMove ops eng request amb).2.length,
   countAcquires_lockTrace (handleMove ops eng request amb).2.length⟩

/-- Helper: reading back a file character recovers the file. -/
theorem charFile_fileChar : ∀ f : Fin 8, charFile (fileChar f) = some f := by
  decide

/-- Helper: reading back a rank character recovers the rank. -/
theorem charRank_rankChar : ∀ r : Fin 8, charRank (rankChar r) = some r := by
  decide

/-- Helper: reading back a promotion character recovers the piece. -/
theorem charPromo_promoChar (p : PromoPiece) :
    charPromo (promoChar p) = some p := by
  cases p <;> decide

/-- Helper: no file character is the digit 0, so a normal move's text never
collides with the null-move token. -/
theorem fileChar_ne_zero : ∀ f : Fin 8, ¬ fileChar f = '0' := by
  decide

/-- Helper: parsing the canonical text of any UCI move recovers the move. -/
theorem parseUci_uciChars (m : UciMove) : parseUci (uciChars m) = some m := by
  cases m with
  | null => rfl
  | normal s d p =>
      obtain ⟨f1, r1⟩ := s
      obtain ⟨f2, r2⟩ := d
      cases p with
      | none =>
          simp [uciChars, parseUci, charFile_fileChar, charRank_rankChar,
            fileChar_ne_zero]
      | some pp =>
          simp [uciChars, parseUci, charFile_fileChar, charRank_rankChar,
            charPromo_promoChar, fileChar_ne_zero]

/-- C8: the Move codec round-trips in both directions: parsing the
serialized canonical UCI text of any move yields the move again; for every
canonical string (one in the image of serialization, the null-move token
included) serializing its parse yields the string character for character;
and the null-move token deserializes to the sentinel, which is distinct
from every real move. -/
theorem uci_codec_roundtrip :
    (∀ m : UciMove, parseUci (uciChars m) = some m) ∧
    (∀ cs : List Char, (∃ m : UciMove, uciChars m = cs) →
      ∃ m, parseUci cs = some m ∧ uciChars m = cs) ∧
    parseUci ['0', '0', '0', '0'] = some UciMove.null ∧
    (∀ s d p, UciMove.normal s d p ≠ UciMove.null) := by
  refine ⟨parseUci_uciChars, ?_, rfl, ?_⟩
  · rintro cs ⟨m, rfl⟩
    exact ⟨m, parseUci_uciChars m, rfl⟩
  · intro s d p h
    exact UciMove.noConfusion h

/-- Witness: the concrete move e2e4 round-trips through the codec in both
directions. -/
theorem uci_codec_roundtrip_witness :
    parseUci (uciChars e2e4) = some e2e4 ∧
    ∃ m, parseUci (uciChars e2e4) = some m ∧ uciChars m = uciChars e2e4 :=
  ⟨uci_codec_roundtrip.1 e2e4,
   uci_codec_roundtrip.2.1 (uciChars e2e4) ⟨e2e4, rfl⟩⟩

end EngineTrait
